import Mathlib

/-!
Shallow embedding of `src/cosign/bundle.rs` (sigstore-rs bundle verification):
the JSON data model, the canonical JSON serializer (olpc_cjson
`CanonicalFormatter` driven by serde), the `Bundle` / `Payload` /
`SignedArtifactBundle` types with their serde wire names, and the
verification entry points `Bundle::verify_bundle`, `Bundle::new_verified`,
`SignedArtifactBundle::new_verified`.

External collaborators (serde_json parsing, the base64 codec, and the
signature-check primitive behind `CosignVerificationKey::verify_signature`)
are not part of the repository source; they are modelled from the spec as
noted on each definition. Machine integers (i64) are modelled as `Int` with
explicit range checks where the code enforces them; byte strings are
`List Nat` (each element a byte value).
-/

namespace SigstoreBundle

/-! ### Characters, escapes and UTF-8 bytes -/

/-- Lowercase hexadecimal digit for a nibble, as serde_json emits in
`\u00XX` escapes. -/
def hexDigitChar (n : Nat) : Char :=
  if n < 10 then Char.ofNat (48 + n) else Char.ofNat (87 + n)

/-- serde_json's JSON string escaping for one character: `"` and `\` get a
backslash escape, the named control characters get their short escapes, the
remaining control characters below 0x20 get `\u00XX`, and every other
character is emitted verbatim. -/
def escapeChar (c : Char) : String :=
  if c = '"' then "\\\""
  else if c = '\\' then "\\\\"
  else if c.toNat = 8 then "\\b"
  else if c.toNat = 9 then "\\t"
  else if c.toNat = 10 then "\\n"
  else if c.toNat = 12 then "\\f"
  else if c.toNat = 13 then "\\r"
  else if c.toNat < 32 then
    "\\u00" ++ String.singleton (hexDigitChar (c.toNat / 16))
      ++ String.singleton (hexDigitChar (c.toNat % 16))
  else String.singleton c

/-- A JSON string literal: quote, escaped characters, quote. -/
def encodeJsonString (s : String) : String :=
  "\"" ++ String.join (s.toList.map escapeChar) ++ "\""

/-- UTF-8 encoding of a Unicode scalar value, as byte values. -/
def utf8EncodeCharNat (n : Nat) : List Nat :=
  if n < 128 then [n]
  else if n < 2048 then [192 + n / 64, 128 + n % 64]
  else if n < 65536 then [224 + n / 4096, 128 + (n / 64) % 64, 128 + n % 64]
  else [240 + n / 262144, 128 + (n / 4096) % 64, 128 + (n / 64) % 64, 128 + n % 64]

/-- The UTF-8 bytes of a string, as `Vec<u8>` holds them in the code. -/
def strBytes (s : String) : List Nat :=
  (s.toList.map (fun c => utf8EncodeCharNat c.toNat)).flatten

/-! ### JSON values

serde_json's data model, as relevant here: integers in the i64/u64 range
are integers; every other JSON number (fractional, exponent, or out of
machine-integer range) is a float. The float's value is irrelevant to this
development: the canonical formatter rejects floats outright and the i64
deserializer rejects them too, so only the presence of the float case
matters. -/

inductive Json where
  | null
  | bool (b : Bool)
  | int (n : Int)
  | float
  | str (text : String)
  | arr (items : List Json)
  | obj (pairs : List (String × Json))

/-! ### Canonical JSON formatting (olpc_cjson `CanonicalFormatter`)

The formatter emits compact JSON (no insignificant whitespace) and buffers
each object's members as (serialized key bytes, serialized value bytes),
ordered by the serialized key bytes with replacement on equal keys
(`BTreeMap<Vec<u8>, Vec<u8>>` in the crate). Keys here are Lean strings;
comparing them by code points coincides with comparing their UTF-8 bytes,
since UTF-8 is order-preserving on scalar values. Floats are rejected:
canonical JSON has no floating point representation. -/

/-- Byte-order comparison of strings via their character code points. -/
def charListLt : List Char → List Char → Bool
  | [], [] => false
  | [], _ :: _ => true
  | _ :: _, [] => false
  | a :: as, b :: bs =>
    if a.toNat < b.toNat then true
    else if b.toNat < a.toNat then false
    else charListLt as bs

/-- Order on serialized object keys. -/
def keyLt (a b : String) : Bool := charListLt a.toList b.toList

/-- Ordered-map insertion keyed by serialized key bytes, replacing the value
when the key is already present (BTreeMap insert). -/
def insertSorted (kv : String × String) : List (String × String) → List (String × String)
  | [] => [kv]
  | head :: rest =>
    if keyLt kv.1 head.1 then kv :: head :: rest
    else if kv.1 = head.1 then kv :: rest
    else head :: insertSorted kv rest

/-- Sort an object's serialized members by serialized key. -/
def sortMembers (pairs : List (String × String)) : List (String × String) :=
  pairs.foldl (fun acc kv => insertSorted kv acc) []

/-- Render sorted, serialized members as a JSON object body. -/
def objText (pairs : List (String × String)) : String :=
  "\x7b" ++ String.intercalate "," (pairs.map (fun kv => kv.1 ++ ":" ++ kv.2)) ++ "\x7d"

/-- The canonical serializer: serde_json's serializer driven by olpc_cjson's
`CanonicalFormatter`. Scalars are emitted compactly, strings with
serde_json escaping, integers in decimal; object members are serialized in
order and then sorted by serialized key; floats are an error. -/
def canonicalFormat : Json → Except String String
  | .null => .ok "null"
  | .bool true => .ok "true"
  | .bool false => .ok "false"
  | .int n => .ok (toString n)
  | .float => .error "Canonical JSON does not support floating point numbers"
  | .str s => .ok (encodeJsonString s)
  | .arr xs =>
    match fmtArr xs with
    | .error e => .error e
    | .ok parts => .ok ("[" ++ String.intercalate "," parts ++ "]")
  | .obj kvs =>
    match fmtMembers kvs with
    | .error e => .error e
    | .ok pairs => .ok (objText (sortMembers pairs))
where
  fmtArr : List Json → Except String (List String)
    | [] => .ok []
    | x :: xs =>
      match canonicalFormat x with
      | .error e => .error e
      | .ok s =>
        match fmtArr xs with
        | .error e => .error e
        | .ok rest => .ok (s :: rest)
  fmtMembers : List (String × Json) → Except String (List (String × String))
    | [] => .ok []
    | (k, v) :: kvs =>
      match canonicalFormat v with
      | .error e => .error e
      | .ok vs =>
        match fmtMembers kvs with
        | .error e => .error e
        | .ok rest => .ok ((encodeJsonString k, vs) :: rest)

/-! ### The data model of `bundle.rs` -/

/-- `Payload` (bundle.rs): body, integratedTime, logIndex, logID. The two
i64 fields are `Int` here; decoding enforces the i64 range. -/
structure Payload where
  body : String
  integrated_time : Int
  log_index : Int
  log_id : String

/-- `Bundle` (bundle.rs): `SignedEntryTimestamp` and `Payload` wire keys
(PascalCase renaming). -/
structure Bundle where
  signed_entry_timestamp : String
  payload : Payload

/-- `SignedArtifactBundle` (bundle.rs): `base64Signature`, `cert`,
`rekorBundle` wire keys (camelCase renaming). -/
structure SignedArtifactBundle where
  base64_signature : String
  cert : String
  rekor_bundle : Bundle

/-- The serde `Serialize` derive for `Payload` emits the fields in
declaration order under their wire names: `body`, `integratedTime`,
`logIndex`, and `logID` (explicit rename). -/
def payloadMembers (p : Payload) : List (String × Json) :=
  [("body", .str p.body), ("integratedTime", .int p.integrated_time),
   ("logIndex", .int p.log_index), ("logID", .str p.log_id)]

/-- The JSON value `Payload::serialize` presents to the formatter. -/
def Payload.toJson (p : Payload) : Json := .obj (payloadMembers p)

/-! ### Errors

`bundle.rs` itself constructs only `SigstoreError::UnexpectedError`. The
other two constructors come out of the external
`CosignVerificationKey::verify_signature` collaborator and are modelled
from the spec: a base64 failure on the encoded signature, and the
signature-mismatch verdict of the cryptographic primitive. -/

inductive SigstoreError where
  | UnexpectedError (msg : String)
  | Base64DecodeError
  | SignatureMismatch
deriving DecidableEq

/-! ### base64 and the signature-check collaborator -/

/-- Standard base64 alphabet value of a character. -/
def b64Val (c : Char) : Option Nat :=
  if 65 ≤ c.toNat ∧ c.toNat ≤ 90 then some (c.toNat - 65)
  else if 97 ≤ c.toNat ∧ c.toNat ≤ 122 then some (c.toNat - 97 + 26)
  else if 48 ≤ c.toNat ∧ c.toNat ≤ 57 then some (c.toNat - 48 + 52)
  else if c.toNat = 43 then some 62
  else if c.toNat = 47 then some 63
  else none

/-- Modelled from the spec: standard base64 decoding with padding
(`base64::decode` in the crypto collaborator). Groups of four alphabet
characters decode to three bytes; the final group may carry one or two
`=` padding characters; any other shape is rejected. -/
def b64DecodeAux : List Char → Option (List Nat)
  | [] => some []
  | a :: b :: c :: d :: rest =>
    match b64Val a, b64Val b with
    | some va, some vb =>
      if rest.isEmpty then
        if c = '=' ∧ d = '=' then
          some [va * 4 + vb / 16]
        else if d = '=' then
          match b64Val c with
          | some vc => some [va * 4 + vb / 16, (vb % 16) * 16 + vc / 4]
          | none => none
        else
          match b64Val c, b64Val d with
          | some vc, some vd =>
            some [va * 4 + vb / 16, (vb % 16) * 16 + vc / 4, (vc % 4) * 64 + vd]
          | _, _ => none
      else
        match b64Val c, b64Val d with
        | some vc, some vd =>
          match b64DecodeAux rest with
          | some bytes =>
            some ((va * 4 + vb / 16) :: ((vb % 16) * 16 + vc / 4) :: ((vc % 4) * 64 + vd) :: bytes)
          | none => none
        | _, _ => none
    | _, _ => none
  | _ => none

/-- Modelled from the spec: base64-decode of a signature string. -/
def base64Decode (s : String) : Option (List Nat) := b64DecodeAux s.toList

/-- `Signature` (crypto module, modelled from the spec): raw signature
bytes, or the bytes of a base64 string still to be decoded. -/
inductive Signature where
  | Raw (bytes : List Nat)
  | Base64Encoded (text : String)

/-- Modelled from the spec: the external cryptographic collaborator. A key
is abstracted as the predicate its signature-check primitive computes over
(decoded signature bytes, message bytes); this core treats the primitive
as correct and does not model the elliptic-curve math. -/
structure CosignVerificationKey where
  check : List Nat → List Nat → Bool

/-- Modelled from the spec: `verify_signature(signature, message, key)`.
A base64-encoded signature is decoded first (failure is a base64 error);
then the primitive either accepts or reports a signature mismatch. -/
def CosignVerificationKey.verify_signature (key : CosignVerificationKey)
    (signature : Signature) (msg : List Nat) : Except SigstoreError Unit :=
  match signature with
  | .Raw bytes => if key.check bytes msg then .ok () else .error .SignatureMismatch
  | .Base64Encoded text =>
    match base64Decode text with
    | none => .error .Base64DecodeError
    | some bytes => if key.check bytes msg then .ok () else .error .SignatureMismatch

/-! ### The verifier (`bundle.rs` impl blocks) -/

/-- `Bundle::verify_bundle`: canonically serialize the payload (a failure
becomes `UnexpectedError`, the internal-error wrap), then hand the base64
signature text and the canonical bytes to the signature check. -/
def Bundle.verify_bundle (bundle : Bundle) (rekor_pub_key : CosignVerificationKey) :
    Except SigstoreError Unit :=
  match canonicalFormat bundle.payload.toJson with
  | .error e =>
    .error (.UnexpectedError ("Cannot create canonical JSON representation of bundle: " ++ e))
  | .ok buf =>
    rekor_pub_key.verify_signature (.Base64Encoded bundle.signed_entry_timestamp) (strBytes buf)

/-! ### JSON parsing (serde_json `from_str`, modelled from the spec)

Modelled from the spec: the wire format is "JSON, UTF-8 text"; the parser
below implements the JSON grammar with serde_json's data model: strings
with the standard escapes including `\uXXXX` and surrogate pairs, numbers
classified as machine integers when they have no fraction or exponent and
fit the i64/u64 range and as floats otherwise, and a whole-input check
(only trailing whitespace may follow the value). -/

/-- JSON whitespace skip: space, tab, line feed, carriage return. -/
def skipWs : List Char → List Char
  | [] => []
  | c :: cs =>
    if c.toNat = 32 ∨ c.toNat = 9 ∨ c.toNat = 10 ∨ c.toNat = 13 then skipWs cs else c :: cs

/-- Hexadecimal digit value. -/
def hexVal (c : Char) : Option Nat :=
  if 48 ≤ c.toNat ∧ c.toNat ≤ 57 then some (c.toNat - 48)
  else if 97 ≤ c.toNat ∧ c.toNat ≤ 102 then some (c.toNat - 87)
  else if 65 ≤ c.toNat ∧ c.toNat ≤ 70 then some (c.toNat - 55)
  else none

/-- Four hexadecimal digits, as in a `\uXXXX` escape. -/
def hex4 (a b c d : Char) : Option Nat :=
  match hexVal a, hexVal b, hexVal c, hexVal d with
  | some x, some y, some z, some w => some (((x * 16 + y) * 16 + z) * 16 + w)
  | _, _, _, _ => none

/-- String body parser, after the opening quote: `acc` holds the parsed
characters in reverse. Handles the escape sequences and UTF-16 surrogate
pairs; a lone surrogate or an unescaped control character is an error. -/
def parseStringAux : List Char → List Char → Option (String × List Char)
  | _, [] => none
  | acc, c :: rest =>
    if c = '"' then some (String.mk acc.reverse, rest)
    else if c = '\\' then
      match rest with
      | [] => none
      | e :: rest2 =>
        if e = '"' then parseStringAux ('"' :: acc) rest2
        else if e = '\\' then parseStringAux ('\\' :: acc) rest2
        else if e = '/' then parseStringAux ('/' :: acc) rest2
        else if e = 'b' then parseStringAux ('\x08' :: acc) rest2
        else if e = 'f' then parseStringAux ('\x0c' :: acc) rest2
        else if e = 'n' then parseStringAux ('\n' :: acc) rest2
        else if e = 'r' then parseStringAux ('\x0d' :: acc) rest2
        else if e = 't' then parseStringAux ('\t' :: acc) rest2
        else if e = 'u' then
          match rest2 with
          | h1 :: h2 :: h3 :: h4 :: rest3 =>
            match hex4 h1 h2 h3 h4 with
            | none => none
            | some n =>
              if 55296 ≤ n ∧ n < 56320 then
                match rest3 with
                | b1 :: b2 :: h5 :: h6 :: h7 :: h8 :: rest4 =>
                  if b1 = '\\' ∧ b2 = 'u' then
                    match hex4 h5 h6 h7 h8 with
                    | none => none
                    | some m =>
                      if 56320 ≤ m ∧ m < 57344 then
                        parseStringAux
                          (Char.ofNat (65536 + (n - 55296) * 1024 + (m - 56320)) :: acc) rest4
                      else none
                  else none
                | _ => none
              else if 56320 ≤ n ∧ n < 57344 then none
              else parseStringAux (Char.ofNat n :: acc) rest3
          | _ => none
        else none
    else if c.toNat < 32 then none
    else parseStringAux (c :: acc) rest

/-- Decimal digit test. -/
def isDigitChar (c : Char) : Bool :=
  decide (48 ≤ c.toNat) && decide (c.toNat ≤ 57)

/-- Split the longest digit run off the front. -/
def takeDigits : List Char → List Char × List Char
  | [] => ([], [])
  | c :: cs =>
    if isDigitChar c then
      let r := takeDigits cs
      (c :: r.1, r.2)
    else ([], c :: cs)

/-- Value of a digit run. -/
def digitsToNat (ds : List Char) : Nat :=
  ds.foldl (fun acc c => acc * 10 + (c.toNat - 48)) 0

/-- JSON number parser (grammar: optional minus, integer part without a
leading zero, optional fraction, optional exponent). A number with a
fraction or an exponent, or an integer outside serde_json's machine-integer
range (below -2^63 or at least 2^64), becomes a float. -/
def parseNumber (cs : List Char) : Option (Json × List Char) :=
  let signed : Bool × List Char :=
    match cs with
    | '-' :: rest => (true, rest)
    | _ => (false, cs)
  match takeDigits signed.2 with
  | ([], _) => none
  | (ds, cs2) =>
    if 1 < ds.length ∧ ds.headD '0' = '0' then none
    else
      let fracRes : Option (Bool × List Char) :=
        match cs2 with
        | '.' :: cs3 =>
          match takeDigits cs3 with
          | ([], _) => none
          | (_, cs4) => some (true, cs4)
        | _ => some (false, cs2)
      match fracRes with
      | none => none
      | some (hasFrac, cs5) =>
        let expRes : Option (Bool × List Char) :=
          match cs5 with
          | e :: cs6 =>
            if e = 'e' ∨ e = 'E' then
              let cs7 :=
                match cs6 with
                | s :: tail => if s = '+' ∨ s = '-' then tail else cs6
                | [] => cs6
              match takeDigits cs7 with
              | ([], _) => none
              | (_, cs8) => some (true, cs8)
            else some (false, cs5)
          | [] => some (false, cs5)
        match expRes with
        | none => none
        | some (hasExp, cs9) =>
          if hasFrac ∨ hasExp then some (.float, cs9)
          else
            let v : Int := if signed.1 then -(digitsToNat ds : Int) else (digitsToNat ds : Int)
            if signed.1 then
              if -(2 ^ 63 : Int) ≤ v then some (.int v, cs9) else some (.float, cs9)
            else if v < (2 ^ 64 : Int) then some (.int v, cs9)
            else some (.float, cs9)

/-- Match an expected literal tail, such as `ull` after `n`. -/
def expectChars : List Char → List Char → Option (List Char)
  | [], cs => some cs
  | _ :: _, [] => none
  | e :: es, c :: cs => if c = e then expectChars es cs else none

mutual

/-- JSON value parser. The fuel decreases at each nesting step; the
top-level caller supplies more fuel than the input length, which always
suffices. -/
def parseValue : Nat → List Char → Option (Json × List Char)
  | 0, _ => none
  | fuel + 1, cs =>
    match skipWs cs with
    | [] => none
    | c :: rest =>
      if c = 'n' then
        match expectChars ['u', 'l', 'l'] rest with
        | some r => some (.null, r)
        | none => none
      else if c = 't' then
        match expectChars ['r', 'u', 'e'] rest with
        | some r => some (.bool true, r)
        | none => none
      else if c = 'f' then
        match expectChars ['a', 'l', 's', 'e'] rest with
        | some r => some (.bool false, r)
        | none => none
      else if c = '"' then
        match parseStringAux [] rest with
        | some (s, r) => some (.str s, r)
        | none => none
      else if c = '[' then parseArrayFirst fuel rest
      else if c = '\x7b' then parseObjFirst fuel rest
      else if c = '-' ∨ isDigitChar c then parseNumber (c :: rest)
      else none

/-- After `[`: empty array or first element. -/
def parseArrayFirst : Nat → List Char → Option (Json × List Char)
  | 0, _ => none
  | fuel + 1, cs =>
    match skipWs cs with
    | ']' :: rest => some (.arr [], rest)
    | cs2 =>
      match parseValue fuel cs2 with
      | none => none
      | some (v, rest) => parseArrayRest fuel [v] rest

/-- After an array element: comma and another element, or the closing
bracket. Elements accumulate in reverse. -/
def parseArrayRest : Nat → List Json → List Char → Option (Json × List Char)
  | 0, _, _ => none
  | fuel + 1, acc, cs =>
    match skipWs cs with
    | ']' :: rest => some (.arr acc.reverse, rest)
    | ',' :: rest =>
      match parseValue fuel rest with
      | none => none
      | some (v, rest2) => parseArrayRest fuel (v :: acc) rest2
    | _ => none

/-- After the opening brace: empty object or first member. -/
def parseObjFirst : Nat → List Char → Option (Json × List Char)
  | 0, _ => none
  | fuel + 1, cs =>
    match skipWs cs with
    | '\x7d' :: rest => some (.obj [], rest)
    | '"' :: rest =>
      match parseMember fuel rest with
      | none => none
      | some (kv, rest2) => parseObjRest fuel [kv] rest2
    | _ => none

/-- After a member: comma and another member, or the closing brace.
Members accumulate in reverse, duplicates preserved. -/
def parseObjRest : Nat → List (String × Json) → List Char → Option (Json × List Char)
  | 0, _, _ => none
  | fuel + 1, acc, cs =>
    match skipWs cs with
    | '\x7d' :: rest => some (.obj acc.reverse, rest)
    | ',' :: rest =>
      match skipWs rest with
      | '"' :: rest2 =>
        match parseMember fuel rest2 with
        | none => none
        | some (kv, rest3) => parseObjRest fuel (kv :: acc) rest3
      | _ => none
    | _ => none

/-- One object member, after its key's opening quote. -/
def parseMember : Nat → List Char → Option ((String × Json) × List Char)
  | 0, _ => none
  | fuel + 1, cs =>
    match parseStringAux [] cs with
    | none => none
    | some (k, rest) =>
      match skipWs rest with
      | ':' :: rest2 =>
        match parseValue fuel rest2 with
        | none => none
        | some (v, rest3) => some ((k, v), rest3)
      | _ => none

end

/-- serde_json `from_str` value layer: parse one JSON value and require
that only whitespace follows it. -/
def parseJson (s : String) : Option Json :=
  match parseValue (s.length + 1) s.toList with
  | none => none
  | some (v, rest) => if (skipWs rest).isEmpty then some v else none

/-! ### serde-derived deserializers

The derives on `Bundle`, `Payload` and `SignedArtifactBundle` give struct
deserializers with the wire names fixed by `rename_all` and the explicit
`logID` rename: members are consumed in input order, unknown keys are
ignored (no `deny_unknown_fields`), a repeated known key is a duplicate
field error, a missing known key is a missing field error, and each value
must have the field's type (i64 fields also range-checked). -/

/-- Deserialize a JSON string. -/
def asString : Json → Except String String
  | .str s => .ok s
  | _ => .error "invalid type, expected a string"

/-- Deserialize an i64: a machine integer within the i64 range. -/
def asI64 : Json → Except String Int
  | .int n => if -(2 ^ 63 : Int) ≤ n ∧ n < (2 ^ 63 : Int) then .ok n
              else .error "integer out of range for i64"
  | _ => .error "invalid type, expected i64"

/-- Member loop of `Payload`'s derived deserializer; the four accumulators
hold the fields already seen. -/
def payloadFields : List (String × Json) → Option String → Option Int → Option Int →
    Option String → Except String Payload
  | [], some b, some it, some li, some lid => .ok ⟨b, it, li, lid⟩
  | [], none, _, _, _ => .error "missing field body"
  | [], _, none, _, _ => .error "missing field integratedTime"
  | [], _, _, none, _ => .error "missing field logIndex"
  | [], _, _, _, none => .error "missing field logID"
  | (k, v) :: rest, b, it, li, lid =>
    if k = "body" then
      match b with
      | some _ => .error "duplicate field body"
      | none =>
        match asString v with
        | .error e => .error e
        | .ok s => payloadFields rest (some s) it li lid
    else if k = "integratedTime" then
      match it with
      | some _ => .error "duplicate field integratedTime"
      | none =>
        match asI64 v with
        | .error e => .error e
        | .ok n => payloadFields rest b (some n) li lid
    else if k = "logIndex" then
      match li with
      | some _ => .error "duplicate field logIndex"
      | none =>
        match asI64 v with
        | .error e => .error e
        | .ok n => payloadFields rest b it (some n) lid
    else if k = "logID" then
      match lid with
      | some _ => .error "duplicate field logID"
      | none =>
        match asString v with
        | .error e => .error e
        | .ok s => payloadFields rest b it li (some s)
    else payloadFields rest b it li lid

/-- `Payload`'s derived deserializer: expects an object. -/
def payloadFromJson : Json → Except String Payload
  | .obj kvs => payloadFields kvs none none none none
  | _ => .error "invalid type, expected struct Payload"

/-- Member loop of `Bundle`'s derived deserializer (PascalCase wire
names). -/
def bundleFields : List (String × Json) → Option String → Option Payload →
    Except String Bundle
  | [], some s, some p => .ok ⟨s, p⟩
  | [], none, _ => .error "missing field SignedEntryTimestamp"
  | [], _, none => .error "missing field Payload"
  | (k, v) :: rest, s?, p? =>
    if k = "SignedEntryTimestamp" then
      match s? with
      | some _ => .error "duplicate field SignedEntryTimestamp"
      | none =>
        match asString v with
        | .error e => .error e
        | .ok s => bundleFields rest (some s) p?
    else if k = "Payload" then
      match p? with
      | some _ => .error "duplicate field Payload"
      | none =>
        match payloadFromJson v with
        | .error e => .error e
        | .ok p => bundleFields rest s? (some p)
    else bundleFields rest s? p?

/-- `Bundle`'s derived deserializer: expects an object. -/
def bundleFromJson : Json → Except String Bundle
  | .obj kvs => bundleFields kvs none none
  | _ => .error "invalid type, expected struct Bundle"

/-- Member loop of `SignedArtifactBundle`'s derived deserializer
(camelCase wire names). -/
def sabFields : List (String × Json) → Option String → Option String → Option Bundle →
    Except String SignedArtifactBundle
  | [], some sig, some cert, some rb => .ok ⟨sig, cert, rb⟩
  | [], none, _, _ => .error "missing field base64Signature"
  | [], _, none, _ => .error "missing field cert"
  | [], _, _, none => .error "missing field rekorBundle"
  | (k, v) :: rest, sig?, cert?, rb? =>
    if k = "base64Signature" then
      match sig? with
      | some _ => .error "duplicate field base64Signature"
      | none =>
        match asString v with
        | .error e => .error e
        | .ok s => sabFields rest (some s) cert? rb?
    else if k = "cert" then
      match cert? with
      | some _ => .error "duplicate field cert"
      | none =>
        match asString v with
        | .error e => .error e
        | .ok s => sabFields rest sig? (some s) rb?
    else if k = "rekorBundle" then
      match rb? with
      | some _ => .error "duplicate field rekorBundle"
      | none =>
        match bundleFromJson v with
        | .error e => .error e
        | .ok b => sabFields rest sig? cert? (some b)
    else sabFields rest sig? cert? rb?

/-- `SignedArtifactBundle`'s derived deserializer: expects an object. -/
def sabFromJson : Json → Except String SignedArtifactBundle
  | .obj kvs => sabFields kvs none none none
  | _ => .error "invalid type, expected struct SignedArtifactBundle"

/-- `serde_json::from_str::<Bundle>`: parse the text, then deserialize. -/
def decodeBundle (raw : String) : Except String Bundle :=
  match parseJson raw with
  | none => .error "invalid JSON"
  | some j => bundleFromJson j

/-- `serde_json::from_str::<SignedArtifactBundle>`. -/
def decodeSignedArtifactBundle (raw : String) : Except String SignedArtifactBundle :=
  match parseJson raw with
  | none => .error "invalid JSON"
  | some j => sabFromJson j

/-- `Bundle::new_verified`: decode, wrapping a decode failure in
`UnexpectedError` with the `Cannot parse bundle` message, then verify,
returning the decoded bundle on success. -/
def Bundle.new_verified (raw : String) (rekor_pub_key : CosignVerificationKey) :
    Except SigstoreError Bundle :=
  match decodeBundle raw with
  | .error e => .error (.UnexpectedError ("Cannot parse bundle |" ++ raw ++ "|: " ++ e))
  | .ok bundle => (Bundle.verify_bundle bundle rekor_pub_key).map (fun _ => bundle)

/-- `SignedArtifactBundle::new_verified`: decode the outer wrapper, with
the same decode-failure wrap, then verify only the embedded
`rekor_bundle`, returning the whole decoded wrapper on success. -/
def SignedArtifactBundle.new_verified (raw : String)
    (rekor_pub_key : CosignVerificationKey) : Except SigstoreError SignedArtifactBundle :=
  match decodeSignedArtifactBundle raw with
  | .error e => .error (.UnexpectedError ("Cannot parse bundle |" ++ raw ++ "|: " ++ e))
  | .ok bundle => (Bundle.verify_bundle bundle.rekor_bundle rekor_pub_key).map (fun _ => bundle)

/-- The canonical payload text as the spec describes it: one JSON object,
keys in sorted byte order `body`, `integratedTime`, `logID`, `logIndex`,
no insignificant whitespace, strings JSON-escaped, integers in decimal. -/
def canonicalPayloadText (p : Payload) : String :=
  "\x7b\"body\":" ++ encodeJsonString p.body ++
    ",\"integratedTime\":" ++ toString p.integrated_time ++
    ",\"logID\":" ++ encodeJsonString p.log_id ++
    ",\"logIndex\":" ++ toString p.log_index ++ "\x7d"

/-- Scalar JSON values: the shapes a payload member can hold. -/
def isScalar : Json → Bool
  | .null => true
  | .bool _ => true
  | .int _ => true
  | .str _ => true
  | .float => false
  | .arr _ => false
  | .obj _ => false

/-- The canonical text of a scalar value (matching `canonicalFormat` on
scalars; irrelevant filler elsewhere). -/
def scalarText : Json → String
  | .null => "null"
  | .bool true => "true"
  | .bool false => "false"
  | .int n => toString n
  | .str s => encodeJsonString s
  | _ => ""

/-- Serialized member of an object with a scalar value. -/
def serMember (kv : String × Json) : String × String :=
  (encodeJsonString kv.1, scalarText kv.2)

/-- Ascending order on serialized members, by serialized key. -/
def keyOrder (x y : String × String) : Prop := keyLt x.1 y.1 = true

/-! ## Shared lemmas -/

/-- The canonical serializer on a payload always succeeds and produces
exactly the sorted-key object text. -/
theorem canonicalFormat_payload (p : Payload) :
    canonicalFormat p.toJson = .ok (canonicalPayloadText p) := by
  have h1 : canonicalFormat p.toJson =
      .ok ("\x7b" ++ String.intercalate ","
        ["\"body\":" ++ encodeJsonString p.body,
         "\"integratedTime\":" ++ toString p.integrated_time,
         "\"logID\":" ++ encodeJsonString p.log_id,
         "\"logIndex\":" ++ toString p.log_index] ++ "\x7d") := rfl
  rw [h1]
  congr 1
  apply String.ext
  simp [canonicalPayloadText, String.intercalate, String.intercalate.go]

/-- `verify_bundle` reduces to the signature check on the canonical
payload bytes: the serialization error branch never fires. -/
theorem verify_bundle_eq (b : Bundle) (k : CosignVerificationKey) :
    Bundle.verify_bundle b k =
      k.verify_signature (.Base64Encoded b.signed_entry_timestamp)
        (strBytes (canonicalPayloadText b.payload)) := by
  simp only [Bundle.verify_bundle, canonicalFormat_payload]

/-! ## Claims -/

/-- C1: for every bundle and key, `verify_bundle` returns `Ok(())` iff the
signature-check primitive accepts (base64-decoded `signed_entry_timestamp`,
canonical serialization of `payload`, key); any other outcome is an
error. -/
theorem verify_bundle_ok_iff_primitive_accepts (b : Bundle) (k : CosignVerificationKey) :
    Bundle.verify_bundle b k = .ok () ↔
      ∃ sig, base64Decode b.signed_entry_timestamp = some sig ∧
        k.check sig (strBytes (canonicalPayloadText b.payload)) = true := by
  rw [verify_bundle_eq]
  unfold CosignVerificationKey.verify_signature
  cases h : base64Decode b.signed_entry_timestamp with
  | none => simp [h]
  | some sig =>
    by_cases hc : k.check sig (strBytes (canonicalPayloadText b.payload)) = true
    · simp [h, hc]
    · simp [h, hc]

/-- C3: a structurally valid bundle (its signature text base64-decodes)
checked against a key whose primitive rejects the signature fails with
`SignatureMismatch` — not with a decode error and not with an internal
error. -/
theorem wrong_key_gives_signature_mismatch (b : Bundle) (k : CosignVerificationKey)
    (sig : List Nat) (hdec : base64Decode b.signed_entry_timestamp = some sig)
    (hk : k.check sig (strBytes (canonicalPayloadText b.payload)) = false) :
    Bundle.verify_bundle b k = .error .SignatureMismatch := by
  rw [verify_bundle_eq]
  unfold CosignVerificationKey.verify_signature
  simp [hdec, hk]

/-- Witness for C3 at a concrete bundle and an always-rejecting key. -/
theorem wrong_key_gives_signature_mismatch_witness :
    base64Decode "AAAA" = some [0, 0, 0] ∧
      Bundle.verify_bundle ⟨"AAAA", ⟨"b", 1, 2, "id"⟩⟩ ⟨fun _ _ => false⟩
        = .error .SignatureMismatch :=
  ⟨rfl, wrong_key_gives_signature_mismatch _ _ [0, 0, 0] rfl rfl⟩

/-- C7: the canonical serialization step inside `verify_bundle` never
fails on any constructible `Payload`, and consequently the internal-error
branch of `verify_bundle` is unreachable for every bundle and key. -/
theorem canonical_serialization_never_fails :
    (∀ p : Payload, canonicalFormat p.toJson = .ok (canonicalPayloadText p)) ∧
      ∀ (b : Bundle) (k : CosignVerificationKey) (m : String),
        Bundle.verify_bundle b k ≠ .error (.UnexpectedError m) := by
  refine ⟨canonicalFormat_payload, fun b k m => ?_⟩
  rw [verify_bundle_eq]
  unfold CosignVerificationKey.verify_signature
  cases h : base64Decode b.signed_entry_timestamp with
  | none => simp [h]
  | some sig =>
    by_cases hc : k.check sig (strBytes (canonicalPayloadText b.payload)) = true
    · simp [h, hc]
    · simp [h, hc]

/-- C10: the message handed to the signature check is exactly the UTF-8
bytes of the object text with keys in sorted byte order `body`,
`integratedTime`, `logID`, `logIndex`, no whitespace, JSON-escaped
strings, and decimal integers. -/
theorem canonical_message_bytes_exact (b : Bundle) (k : CosignVerificationKey) :
    canonicalFormat b.payload.toJson = .ok (canonicalPayloadText b.payload) ∧
      Bundle.verify_bundle b k =
        k.verify_signature (.Base64Encoded b.signed_entry_timestamp)
          (strBytes (canonicalPayloadText b.payload)) :=
  ⟨canonicalFormat_payload b.payload, verify_bundle_eq b k⟩

/-- C2: `Bundle::new_verified` returns a bundle exactly when the text
decodes to that bundle and `verify_bundle` accepts it under the key;
otherwise it returns an error and no bundle is produced. -/
theorem new_verified_ok_iff_decode_and_verify (raw : String) (k : CosignVerificationKey)
    (b : Bundle) :
    Bundle.new_verified raw k = .ok b ↔
      decodeBundle raw = .ok b ∧ Bundle.verify_bundle b k = .ok () := by
  unfold Bundle.new_verified
  cases h : decodeBundle raw with
  | error e => simp
  | ok b0 =>
    cases hv : Bundle.verify_bundle b0 k with
    | error e2 =>
      constructor
      · intro hcon
        simp [Except.map, hv] at hcon
      · rintro ⟨heq, h2⟩
        injection heq with h3
        subst h3
        rw [hv] at h2
        cases h2
    | ok u =>
      cases u
      constructor
      · intro heq
        simp only [Except.map, hv] at heq
        injection heq with h3
        subst h3
        exact ⟨rfl, hv⟩
      · rintro ⟨heq, _⟩
        injection heq with h3
        subst h3
        simp [Except.map, hv]

/-- C5: `SignedArtifactBundle::new_verified` verifies only the embedded
`rekor_bundle`; it succeeds exactly when the text decodes to the returned
wrapper and that embedded bundle verifies, so the `base64_signature` and
`cert` fields come back exactly as decoded from the input, untouched by
verification. -/
theorem sab_new_verified_ok_iff (raw : String) (k : CosignVerificationKey)
    (sab : SignedArtifactBundle) :
    SignedArtifactBundle.new_verified raw k = .ok sab ↔
      decodeSignedArtifactBundle raw = .ok sab ∧
        Bundle.verify_bundle sab.rekor_bundle k = .ok () := by
  unfold SignedArtifactBundle.new_verified
  cases h : decodeSignedArtifactBundle raw with
  | error e => simp
  | ok s0 =>
    cases hv : Bundle.verify_bundle s0.rekor_bundle k with
    | error e2 =>
      constructor
      · intro hcon
        simp [Except.map, hv] at hcon
      · rintro ⟨heq, h2⟩
        injection heq with h3
        subst h3
        rw [hv] at h2
        cases h2
    | ok u =>
      cases u
      constructor
      · intro heq
        simp only [Except.map, hv] at heq
        injection heq with h3
        subst h3
        exact ⟨rfl, hv⟩
      · rintro ⟨heq, _⟩
        injection heq with h3
        subst h3
        simp [Except.map, hv]

/-- If no member is named `SignedEntryTimestamp`, the `Bundle` member loop
fails, whatever else the object holds. -/
theorem bundleFields_missing_set (kvs : List (String × Json)) (p? : Option Payload)
    (h : "SignedEntryTimestamp" ∉ kvs.map Prod.fst) :
    ∃ e, bundleFields kvs none p? = .error e := by
  induction kvs generalizing p? with
  | nil => cases p? <;> exact ⟨_, rfl⟩
  | cons kv rest ih =>
    obtain ⟨k, v⟩ := kv
    simp only [List.map_cons, List.mem_cons, not_or] at h
    obtain ⟨hk, hrest⟩ := h
    have hk2 : ¬(k = "SignedEntryTimestamp") := fun hcon => hk hcon.symm
    by_cases hp : k = "Payload"
    · subst hp
      cases p? with
      | some p => exact ⟨"duplicate field Payload", by simp [bundleFields]⟩
      | none =>
        cases hpv : payloadFromJson v with
        | error e => exact ⟨e, by simp [bundleFields, hpv]⟩
        | ok p =>
          obtain ⟨e, he⟩ := ih (some p) hrest
          exact ⟨e, by simp [bundleFields, hpv, he]⟩
    · obtain ⟨e, he⟩ := ih p? hrest
      exact ⟨e, by simp [bundleFields, hk2, hp, he]⟩

/-- If no member is named `Payload`, the `Bundle` member loop fails. -/
theorem bundleFields_missing_payload (kvs : List (String × Json)) (s? : Option String)
    (h : "Payload" ∉ kvs.map Prod.fst) :
    ∃ e, bundleFields kvs s? none = .error e := by
  induction kvs generalizing s? with
  | nil => cases s? <;> exact ⟨_, rfl⟩
  | cons kv rest ih =>
    obtain ⟨k, v⟩ := kv
    simp only [List.map_cons, List.mem_cons, not_or] at h
    obtain ⟨hk, hrest⟩ := h
    have hk2 : ¬(k = "Payload") := fun hcon => hk hcon.symm
    by_cases hs : k = "SignedEntryTimestamp"
    · subst hs
      cases s? with
      | some s => exact ⟨"duplicate field SignedEntryTimestamp", by simp [bundleFields]⟩
      | none =>
        cases hsv : asString v with
        | error e => exact ⟨e, by simp [bundleFields, hsv]⟩
        | ok s =>
          obtain ⟨e, he⟩ := ih (some s) hrest
          exact ⟨e, by simp [bundleFields, hsv, he]⟩
    · obtain ⟨e, he⟩ := ih s? hrest
      exact ⟨e, by simp [bundleFields, hs, hk2, he]⟩

/-- If no member is named `body`, the `Payload` member loop fails. -/
theorem payloadFields_missing_body (kvs : List (String × Json)) (it li : Option Int)
    (lid : Option String) (h : "body" ∉ kvs.map Prod.fst) :
    ∃ e, payloadFields kvs none it li lid = .error e := by
  induction kvs generalizing it li lid with
  | nil => cases it <;> cases li <;> cases lid <;> exact ⟨_, rfl⟩
  | cons kv rest ih =>
    obtain ⟨k, v⟩ := kv
    simp only [List.map_cons, List.mem_cons, not_or] at h
    obtain ⟨hk, hrest⟩ := h
    have hk2 : ¬(k = "body") := fun hcon => hk hcon.symm
    by_cases h1 : k = "integratedTime"
    · subst h1
      cases it with
      | some n => exact ⟨"duplicate field integratedTime", by simp [payloadFields]⟩
      | none =>
        cases hv : asI64 v with
        | error e => exact ⟨e, by simp [payloadFields, hv]⟩
        | ok n =>
          obtain ⟨e, he⟩ := ih (some n) li lid hrest
          exact ⟨e, by simp [payloadFields, hv, he]⟩
    · by_cases h2 : k = "logIndex"
      · subst h2
        cases li with
        | some n => exact ⟨"duplicate field logIndex", by simp [payloadFields]⟩
        | none =>
          cases hv : asI64 v with
          | error e => exact ⟨e, by simp [payloadFields, hv]⟩
          | ok n =>
            obtain ⟨e, he⟩ := ih it (some n) lid hrest
            exact ⟨e, by simp [payloadFields, hv, he]⟩
      · by_cases h3 : k = "logID"
        · subst h3
          cases lid with
          | some s => exact ⟨"duplicate field logID", by simp [payloadFields]⟩
          | none =>
            cases hv : asString v with
            | error e => exact ⟨e, by simp [payloadFields, hv]⟩
            | ok s =>
              obtain ⟨e, he⟩ := ih it li (some s) hrest
              exact ⟨e, by simp [payloadFields, hv, he]⟩
        · obtain ⟨e, he⟩ := ih it li lid hrest
          exact ⟨e, by simp [payloadFields, hk2, h1, h2, h3, he]⟩

/-- If no member is named `integratedTime`, the `Payload` member loop
fails. -/
theorem payloadFields_missing_it (kvs : List (String × Json)) (b : Option String)
    (li : Option Int) (lid : Option String) (h : "integratedTime" ∉ kvs.map Prod.fst) :
    ∃ e, payloadFields kvs b none li lid = .error e := by
  induction kvs generalizing b li lid with
  | nil => cases b <;> cases li <;> cases lid <;> exact ⟨_, rfl⟩
  | cons kv rest ih =>
    obtain ⟨k, v⟩ := kv
    simp only [List.map_cons, List.mem_cons, not_or] at h
    obtain ⟨hk, hrest⟩ := h
    have hk2 : ¬(k = "integratedTime") := fun hcon => hk hcon.symm
    by_cases h1 : k = "body"
    · subst h1
      cases b with
      | some s => exact ⟨"duplicate field body", by simp [payloadFields]⟩
      | none =>
        cases hv : asString v with
        | error e => exact ⟨e, by simp [payloadFields, hv]⟩
        | ok s =>
          obtain ⟨e, he⟩ := ih (some s) li lid hrest
          exact ⟨e, by simp [payloadFields, hv, he]⟩
    · by_cases h2 : k = "logIndex"
      · subst h2
        cases li with
        | some n => exact ⟨"duplicate field logIndex", by simp [payloadFields]⟩
        | none =>
          cases hv : asI64 v with
          | error e => exact ⟨e, by simp [payloadFields, hv]⟩
          | ok n =>
            obtain ⟨e, he⟩ := ih b (some n) lid hrest
            exact ⟨e, by simp [payloadFields, hv, he]⟩
      · by_cases h3 : k = "logID"
        · subst h3
          cases lid with
          | some s => exact ⟨"duplicate field logID", by simp [payloadFields]⟩
          | none =>
            cases hv : asString v with
            | error e => exact ⟨e, by simp [payloadFields, hv]⟩
            | ok s =>
              obtain ⟨e, he⟩ := ih b li (some s) hrest
              exact ⟨e, by simp [payloadFields, hv, he]⟩
        · obtain ⟨e, he⟩ := ih b li lid hrest
          exact ⟨e, by simp [payloadFields, hk2, h1, h2, h3, he]⟩

/-- If no member is named `logIndex`, the `Payload` member loop fails. -/
theorem payloadFields_missing_li (kvs : List (String × Json)) (b : Option String)
    (it : Option Int) (lid : Option String) (h : "logIndex" ∉ kvs.map Prod.fst) :
    ∃ e, payloadFields kvs b it none lid = .error e := by
  induction kvs generalizing b it lid with
  | nil => cases b <;> cases it <;> cases lid <;> exact ⟨_, rfl⟩
  | cons kv rest ih =>
    obtain ⟨k, v⟩ := kv
    simp only [List.map_cons, List.mem_cons, not_or] at h
    obtain ⟨hk, hrest⟩ := h
    have hk2 : ¬(k = "logIndex") := fun hcon => hk hcon.symm
    by_cases h1 : k = "body"
    · subst h1
      cases b with
      | some s => exact ⟨"duplicate field body", by simp [payloadFields]⟩
      | none =>
        cases hv : asString v with
        | error e => exact ⟨e, by simp [payloadFields, hv]⟩
        | ok s =>
          obtain ⟨e, he⟩ := ih (some s) it lid hrest
          exact ⟨e, by simp [payloadFields, hv, he]⟩
    · by_cases h2 : k = "integratedTime"
      · subst h2
        cases it with
        | some n => exact ⟨"duplicate field integratedTime", by simp [payloadFields]⟩
        | none =>
          cases hv : asI64 v with
          | error e => exact ⟨e, by simp [payloadFields, hv]⟩
          | ok n =>
            obtain ⟨e, he⟩ := ih b (some n) lid hrest
            exact ⟨e, by simp [payloadFields, hv, he]⟩
      · by_cases h3 : k = "logID"
        · subst h3
          cases lid with
          | some s => exact ⟨"duplicate field logID", by simp [payloadFields]⟩
          | none =>
            cases hv : asString v with
            | error e => exact ⟨e, by simp [payloadFields, hv]⟩
            | ok s =>
              obtain ⟨e, he⟩ := ih b it (some s) hrest
              exact ⟨e, by simp [payloadFields, hv, he]⟩
        · obtain ⟨e, he⟩ := ih b it lid hrest
          exact ⟨e, by simp [payloadFields, hk2, h1, h2, h3, he]⟩

/-- If no member is named `logID` — including when the input writes the
key as `logId` — the `Payload` member loop fails. -/
theorem payloadFields_missing_lid (kvs : List (String × Json)) (b : Option String)
    (it li : Option Int) (h : "logID" ∉ kvs.map Prod.fst) :
    ∃ e, payloadFields kvs b it li none = .error e := by
  induction kvs generalizing b it li with
  | nil => cases b <;> cases it <;> cases li <;> exact ⟨_, rfl⟩
  | cons kv rest ih =>
    obtain ⟨k, v⟩ := kv
    simp only [List.map_cons, List.mem_cons, not_or] at h
    obtain ⟨hk, hrest⟩ := h
    have hk2 : ¬(k = "logID") := fun hcon => hk hcon.symm
    by_cases h1 : k = "body"
    · subst h1
      cases b with
      | some s => exact ⟨"duplicate field body", by simp [payloadFields]⟩
      | none =>
        cases hv : asString v with
        | error e => exact ⟨e, by simp [payloadFields, hv]⟩
        | ok s =>
          obtain ⟨e, he⟩ := ih (some s) it li hrest
          exact ⟨e, by simp [payloadFields, hv, he]⟩
    · by_cases h2 : k = "integratedTime"
      · subst h2
        cases it with
        | some n => exact ⟨"duplicate field integratedTime", by simp [payloadFields]⟩
        | none =>
          cases hv : asI64 v with
          | error e => exact ⟨e, by simp [payloadFields, hv]⟩
          | ok n =>
            obtain ⟨e, he⟩ := ih b (some n) li hrest
            exact ⟨e, by simp [payloadFields, hv, he]⟩
      · by_cases h3 : k = "logIndex"
        · subst h3
          cases li with
          | some n => exact ⟨"duplicate field logIndex", by simp [payloadFields]⟩
          | none =>
            cases hv : asI64 v with
            | error e => exact ⟨e, by simp [payloadFields, hv]⟩
            | ok n =>
              obtain ⟨e, he⟩ := ih b it (some n) hrest
              exact ⟨e, by simp [payloadFields, hv, he]⟩
        · obtain ⟨e, he⟩ := ih b it li hrest
          exact ⟨e, by simp [payloadFields, hk2, h1, h2, h3, he]⟩

/-- C4 counterexample: on malformed input both entry points return the
`UnexpectedError` constructor — the very constructor `verify_bundle` uses
for internal canonicalization failures — so the decode failure is not a
distinct `DecodeError` kind in the returned error type. -/
theorem decode_error_shares_internal_error_ctor :
    Bundle.new_verified "x" ⟨fun _ _ => true⟩
        = .error (.UnexpectedError "Cannot parse bundle |x|: invalid JSON")
      ∧ SignedArtifactBundle.new_verified "x" ⟨fun _ _ => true⟩
        = .error (.UnexpectedError "Cannot parse bundle |x|: invalid JSON") :=
  ⟨rfl, rfl⟩

/-- C4 (amended): on any malformed input, both `new_verified` entry points
fail with `UnexpectedError` wrapping a `Cannot parse bundle` message; that
value is distinct from `SignatureMismatch`, but it is the same constructor
used for internal canonicalization failures — only the message text
separates the two. -/
theorem decode_failures_wrapped_as_unexpected (raw : String) (k : CosignVerificationKey)
    (e e2 : String) (hb : decodeBundle raw = .error e)
    (hs : decodeSignedArtifactBundle raw = .error e2) :
    Bundle.new_verified raw k
        = .error (.UnexpectedError ("Cannot parse bundle |" ++ raw ++ "|: " ++ e))
      ∧ SignedArtifactBundle.new_verified raw k
        = .error (.UnexpectedError ("Cannot parse bundle |" ++ raw ++ "|: " ++ e2))
      ∧ ∀ m : String, SigstoreError.UnexpectedError m ≠ .SignatureMismatch := by
  refine ⟨?_, ?_, by simp⟩
  · simp [Bundle.new_verified, hb]
  · simp [SignedArtifactBundle.new_verified, hs]

/-- Witness for the amended C4 at a concrete malformed input. -/
theorem decode_failures_wrapped_as_unexpected_witness :
    Bundle.new_verified "x" ⟨fun _ _ => false⟩
        = .error (.UnexpectedError ("Cannot parse bundle |" ++ "x" ++ "|: " ++ "invalid JSON"))
      ∧ SignedArtifactBundle.new_verified "x" ⟨fun _ _ => false⟩
        = .error (.UnexpectedError ("Cannot parse bundle |" ++ "x" ++ "|: " ++ "invalid JSON"))
      ∧ ∀ m : String, SigstoreError.UnexpectedError m ≠ .SignatureMismatch :=
  decode_failures_wrapped_as_unexpected "x" ⟨fun _ _ => false⟩ "invalid JSON" "invalid JSON"
    rfl rfl

/-- C6: JSON input whose top-level object lacks `Payload` or
`SignedEntryTimestamp` makes `Bundle::new_verified` return the
decode-failure error (an `UnexpectedError` wrapping the parse message) and
never a successfully verified bundle, for any key. The embedding is total,
so no panic exists. -/
theorem missing_fields_never_verify (raw : String) (k : CosignVerificationKey)
    (kvs : List (String × Json)) (hparse : parseJson raw = some (.obj kvs))
    (hmiss : "Payload" ∉ kvs.map Prod.fst ∨ "SignedEntryTimestamp" ∉ kvs.map Prod.fst) :
    (∃ m, Bundle.new_verified raw k = .error (.UnexpectedError m)) ∧
      ∀ b, Bundle.new_verified raw k ≠ .ok b := by
  have hdec : ∃ e, decodeBundle raw = .error e := by
    have h1 : decodeBundle raw = bundleFields kvs none none := by
      simp [decodeBundle, hparse, bundleFromJson]
    rw [h1]
    cases hmiss with
    | inl h => exact bundleFields_missing_payload kvs none h
    | inr h => exact bundleFields_missing_set kvs none h
  obtain ⟨e, he⟩ := hdec
  constructor
  · exact ⟨"Cannot parse bundle |" ++ raw ++ "|: " ++ e, by simp [Bundle.new_verified, he]⟩
  · intro b
    simp [Bundle.new_verified, he]

/-- Witness for C6 at the concrete input of an empty JSON object. -/
theorem missing_fields_never_verify_witness :
    (∃ m, Bundle.new_verified "\x7b\x7d" ⟨fun _ _ => true⟩ = .error (.UnexpectedError m)) ∧
      ∀ b, Bundle.new_verified "\x7b\x7d" ⟨fun _ _ => true⟩ ≠ .ok b :=
  missing_fields_never_verify "\x7b\x7d" ⟨fun _ _ => true⟩ [] rfl (Or.inl (by simp))

/-- C9: decoding accepts exactly the wire key names — the outer keys
`SignedEntryTimestamp` and `Payload` and the inner keys `body`,
`integratedTime`, `logIndex` and `logID` in those exact spellings — and an
object whose members never use one of those exact names (as with another
casing of it) is rejected. -/
theorem wire_key_names_exact :
    (∀ (s b lid : String) (it li : Int),
      -(2 ^ 63 : Int) ≤ it → it < (2 ^ 63 : Int) →
      -(2 ^ 63 : Int) ≤ li → li < (2 ^ 63 : Int) →
      bundleFromJson (.obj [("SignedEntryTimestamp", .str s),
          ("Payload", .obj [("body", .str b), ("integratedTime", .int it),
            ("logIndex", .int li), ("logID", .str lid)])])
        = .ok ⟨s, ⟨b, it, li, lid⟩⟩)
    ∧ (∀ kvs, "SignedEntryTimestamp" ∉ kvs.map Prod.fst →
        ∃ e, bundleFromJson (.obj kvs) = .error e)
    ∧ (∀ kvs, "Payload" ∉ kvs.map Prod.fst → ∃ e, bundleFromJson (.obj kvs) = .error e)
    ∧ (∀ kvs, "body" ∉ kvs.map Prod.fst → ∃ e, payloadFromJson (.obj kvs) = .error e)
    ∧ (∀ kvs, "integratedTime" ∉ kvs.map Prod.fst →
        ∃ e, payloadFromJson (.obj kvs) = .error e)
    ∧ (∀ kvs, "logIndex" ∉ kvs.map Prod.fst → ∃ e, payloadFromJson (.obj kvs) = .error e)
    ∧ (∀ kvs, "logID" ∉ kvs.map Prod.fst → ∃ e, payloadFromJson (.obj kvs) = .error e) := by
  refine ⟨?_, ?_, ?_, ?_, ?_, ?_, ?_⟩
  · intro s b lid it li h1 h2 h3 h4
    norm_num at h1 h2 h3 h4
    simp [bundleFromJson, bundleFields, payloadFromJson, payloadFields, asString, asI64,
      h1, h2, h3, h4]
  · intro kvs h
    exact bundleFields_missing_set kvs none h
  · intro kvs h
    exact bundleFields_missing_payload kvs none h
  · intro kvs h
    exact payloadFields_missing_body kvs none none none h
  · intro kvs h
    exact payloadFields_missing_it kvs none none none h
  · intro kvs h
    exact payloadFields_missing_li kvs none none none h
  · intro kvs h
    exact payloadFields_missing_lid kvs none none none h

/-- Witness for C9: the exact casing decodes; `signedEntryTimestamp` and
`logId` spellings are rejected. -/
theorem wire_key_names_exact_witness :
    bundleFromJson (.obj [("SignedEntryTimestamp", .str "s"),
        ("Payload", .obj [("body", .str "b"), ("integratedTime", .int 1),
          ("logIndex", .int 2), ("logID", .str "id")])])
      = .ok ⟨"s", ⟨"b", 1, 2, "id"⟩⟩
    ∧ (∃ e, bundleFromJson (.obj [("signedEntryTimestamp", .str "x"),
        ("Payload", .obj [])]) = .error e)
    ∧ (∃ e, payloadFromJson (.obj [("body", .str "b"), ("integratedTime", .int 1),
        ("logIndex", .int 2), ("logId", .str "y")]) = .error e) :=
  ⟨wire_key_names_exact.1 "s" "b" "id" 1 2 (by decide) (by decide) (by decide) (by decide),
   wire_key_names_exact.2.1 _ (by decide),
   wire_key_names_exact.2.2.2.2.2.2 _ (by decide)⟩

/-! ## Order-independence of the canonical member sort (for C8) -/

/-- Characters with equal code points are equal. -/
theorem charToNat_inj {a b : Char} (h : a.toNat = b.toNat) : a = b :=
  Char.ext (UInt32.ext h)

/-- The byte order on character lists is asymmetric. -/
theorem charListLt_asymm : ∀ (a b : List Char), charListLt a b = true → charListLt b a = false
  | [], [] => by simp [charListLt]
  | [], _ :: _ => by simp [charListLt]
  | _ :: _, [] => by simp [charListLt]
  | a :: as, b :: bs => by
    simp only [charListLt]
    by_cases h1 : a.toNat < b.toNat
    · intro _
      rw [if_neg (by omega : ¬b.toNat < a.toNat), if_pos h1]
    · by_cases h2 : b.toNat < a.toNat
      · simp [h1, h2]
      · intro h3
        rw [if_neg h1, if_neg h2] at h3
        rw [if_neg h2, if_neg h1]
        exact charListLt_asymm as bs h3

/-- Character lists that each fail to precede the other are equal. -/
theorem charListLt_eq_of_both_false :
    ∀ (a b : List Char), charListLt a b = false → charListLt b a = false → a = b
  | [], [] => by intro _ _; rfl
  | [], _ :: _ => by intro h1 _; simp [charListLt] at h1
  | _ :: _, [] => by intro _ h2; simp [charListLt] at h2
  | a :: as, b :: bs => by
    intro h1 h2
    simp only [charListLt] at h1 h2
    by_cases hab : a.toNat < b.toNat
    · rw [if_pos hab] at h1; cases h1
    · by_cases hba : b.toNat < a.toNat
      · rw [if_pos hba] at h2; cases h2
      · rw [if_neg hab, if_neg hba] at h1
        rw [if_neg hba, if_neg hab] at h2
        have hhd : a = b := charToNat_inj (by omega)
        have htl : as = bs := charListLt_eq_of_both_false as bs h1 h2
        rw [hhd, htl]

/-- The byte order on character lists is transitive. -/
theorem charListLt_trans :
    ∀ (a b c : List Char), charListLt a b = true → charListLt b c = true →
      charListLt a c = true
  | [], [], _ => by intro h1 _; simp [charListLt] at h1
  | _ :: _, [], _ => by intro h1 _; simp [charListLt] at h1
  | [], _ :: _, [] => by intro _ h2; simp [charListLt] at h2
  | _ :: _, _ :: _, [] => by intro _ h2; simp [charListLt] at h2
  | [], _ :: _, _ :: _ => by intro _ _; simp [charListLt]
  | a :: as, b :: bs, c :: cs => by
    intro h1 h2
    simp only [charListLt] at h1 h2 ⊢
    by_cases hab : a.toNat < b.toNat
    · by_cases hbc : b.toNat < c.toNat
      · rw [if_pos (by omega : a.toNat < c.toNat)]
      · by_cases hcb : c.toNat < b.toNat
        · rw [if_neg hbc, if_pos hcb] at h2; cases h2
        · rw [if_pos (by omega : a.toNat < c.toNat)]
    · by_cases hba : b.toNat < a.toNat
      · rw [if_neg hab, if_pos hba] at h1; cases h1
      · by_cases hbc : b.toNat < c.toNat
        · rw [if_pos (by omega : a.toNat < c.toNat)]
        · by_cases hcb : c.toNat < b.toNat
          · rw [if_neg hbc, if_pos hcb] at h2; cases h2
          · rw [if_neg (by omega : ¬a.toNat < c.toNat),
              if_neg (by omega : ¬c.toNat < a.toNat)]
            rw [if_neg hab, if_neg hba] at h1
            rw [if_neg hbc, if_neg hcb] at h2
            exact charListLt_trans as bs cs h1 h2

/-- Asymmetry of the serialized-key order. -/
theorem keyLt_asymm {a b : String} (h : keyLt a b = true) : keyLt b a = false :=
  charListLt_asymm _ _ h

/-- Strings that each fail to precede the other are equal. -/
theorem keyLt_eq_of_both_false {a b : String} (h1 : keyLt a b = false)
    (h2 : keyLt b a = false) : a = b :=
  String.ext (charListLt_eq_of_both_false _ _ h1 h2)

/-- Transitivity of the serialized-key order. -/
theorem keyLt_trans {a b c : String} (h1 : keyLt a b = true) (h2 : keyLt b c = true) :
    keyLt a c = true :=
  charListLt_trans _ _ _ h1 h2

/-- Everything in an insertion result is the inserted pair or was already
present. -/
theorem insertSorted_mem (kv : String × String) :
    ∀ (acc : List (String × String)) (x : String × String),
      x ∈ insertSorted kv acc → x = kv ∨ x ∈ acc
  | [], x => by simp [insertSorted]
  | hd :: tl, x => by
    simp only [insertSorted]
    by_cases h1 : keyLt kv.1 hd.1 = true
    · rw [if_pos h1]
      intro hx
      rcases List.mem_cons.mp hx with h | h
      · exact Or.inl h
      · exact Or.inr h
    · rw [if_neg h1]
      by_cases h2 : kv.1 = hd.1
      · rw [if_pos h2]
        intro hx
        rcases List.mem_cons.mp hx with h | h
        · exact Or.inl h
        · exact Or.inr (List.mem_cons_of_mem _ h)
      · rw [if_neg h2]
        intro hx
        rcases List.mem_cons.mp hx with h | h
        · exact Or.inr (h ▸ List.mem_cons_self hd tl)
        · rcases insertSorted_mem kv tl x h with h3 | h3
          · exact Or.inl h3
          · exact Or.inr (List.mem_cons_of_mem _ h3)

/-- Inserting a pair whose key is absent permutes to consing it. -/
theorem insertSorted_perm (kv : String × String) :
    ∀ (acc : List (String × String)), (∀ x ∈ acc, kv.1 ≠ x.1) →
      (insertSorted kv acc).Perm (kv :: acc)
  | [] => by simp [insertSorted]
  | hd :: tl => by
    intro h
    simp only [insertSorted]
    by_cases h1 : keyLt kv.1 hd.1 = true
    · rw [if_pos h1]
    · rw [if_neg h1, if_neg (h hd (List.mem_cons_self hd tl))]
      have ih := insertSorted_perm kv tl (fun x hx => h x (List.mem_cons_of_mem _ hx))
      exact (ih.cons hd).trans (List.Perm.swap kv hd tl)

/-- Insertion preserves the ascending-key invariant. -/
theorem insertSorted_pairwise (kv : String × String) :
    ∀ (acc : List (String × String)), acc.Pairwise keyOrder →
      (insertSorted kv acc).Pairwise keyOrder
  | [] => by simp [insertSorted, keyOrder]
  | hd :: tl => by
    intro hs
    obtain ⟨hhd, htl⟩ := List.pairwise_cons.mp hs
    simp only [insertSorted]
    by_cases h1 : keyLt kv.1 hd.1 = true
    · rw [if_pos h1]
      refine List.pairwise_cons.mpr ⟨?_, hs⟩
      intro x hx
      rcases List.mem_cons.mp hx with h | h
      · rw [h]; exact h1
      · exact keyLt_trans h1 (hhd x h)
    · rw [if_neg h1]
      by_cases h2 : kv.1 = hd.1
      · rw [if_pos h2]
        refine List.pairwise_cons.mpr ⟨?_, htl⟩
        intro x hx
        show keyLt kv.1 x.1 = true
        rw [h2]
        exact hhd x hx
      · rw [if_neg h2]
        refine List.pairwise_cons.mpr ⟨?_, insertSorted_pairwise kv tl htl⟩
        intro x hx
        rcases insertSorted_mem kv tl x hx with h | h
        · rw [h]
          have h3 : keyLt kv.1 hd.1 = false := by
            cases h4 : keyLt kv.1 hd.1 with
            | true => exact absurd h4 h1
            | false => rfl
          cases h4 : keyLt hd.1 kv.1 with
          | true => exact h4
          | false => exact absurd (keyLt_eq_of_both_false h4 h3).symm h2
        · exact hhd x h

/-- Folding insertions over members with pairwise-distinct keys permutes to
appending them. -/
theorem foldl_insertSorted_perm :
    ∀ (l acc : List (String × String)), (((acc ++ l).map Prod.fst).Nodup) →
      (l.foldl (fun acc kv => insertSorted kv acc) acc).Perm (acc ++ l)
  | [], acc => by simp
  | x :: xs, acc => by
    intro hn
    have hperm0 : (acc ++ x :: xs).Perm (x :: (acc ++ xs)) := List.perm_middle
    have hn0 : ((x :: (acc ++ xs)).map Prod.fst).Nodup :=
      (hperm0.map Prod.fst).nodup hn
    have hx : ∀ y ∈ acc, x.1 ≠ y.1 := by
      intro y hy hcon
      have h1 : x.1 ∉ (acc ++ xs).map Prod.fst := by
        rw [List.map_cons] at hn0
        exact (List.nodup_cons.mp hn0).1
      exact h1 (by
        rw [hcon]
        exact List.mem_map_of_mem Prod.fst (List.mem_append_left xs hy))
    have hins : (insertSorted x acc).Perm (x :: acc) := insertSorted_perm x acc hx
    have hn1 : (((insertSorted x acc) ++ xs).map Prod.fst).Nodup := by
      have hp : ((insertSorted x acc) ++ xs).Perm ((x :: acc) ++ xs) :=
        (List.perm_append_right_iff xs).mpr hins
      have hp2 : ((x :: acc) ++ xs).Perm (acc ++ x :: xs) := by
        simpa using List.perm_middle.symm
      exact ((hp.trans hp2).map Prod.fst).symm.nodup hn
    have ih := foldl_insertSorted_perm xs (insertSorted x acc) hn1
    show (xs.foldl (fun acc kv => insertSorted kv acc) (insertSorted x acc)).Perm _
    refine ih.trans ?_
    refine ((List.perm_append_right_iff xs).mpr hins).trans ?_
    simpa using List.perm_middle.symm

/-- Folding insertions always yields an ascending-key list. -/
theorem foldl_insertSorted_pairwise :
    ∀ (l acc : List (String × String)), acc.Pairwise keyOrder →
      (l.foldl (fun acc kv => insertSorted kv acc) acc).Pairwise keyOrder
  | [], acc => by simp
  | x :: xs, acc => by
    intro hs
    exact foldl_insertSorted_pairwise xs (insertSorted x acc) (insertSorted_pairwise x acc hs)

/-- The canonical member sort is invariant under permutation of the input,
whenever the serialized keys are pairwise distinct. -/
theorem sortMembers_eq_of_perm (l₁ l₂ : List (String × String)) (hp : l₁.Perm l₂)
    (hn : (l₁.map Prod.fst).Nodup) : sortMembers l₁ = sortMembers l₂ := by
  have hn2 : (l₂.map Prod.fst).Nodup := (hp.map Prod.fst).nodup hn
  have s1 : (sortMembers l₁).Perm l₁ := foldl_insertSorted_perm l₁ [] (by simpa using hn)
  have s2 : (sortMembers l₂).Perm l₂ := foldl_insertSorted_perm l₂ [] (by simpa using hn2)
  have sorted1 : (sortMembers l₁).Pairwise keyOrder :=
    foldl_insertSorted_pairwise l₁ [] List.Pairwise.nil
  have sorted2 : (sortMembers l₂).Pairwise keyOrder :=
    foldl_insertSorted_pairwise l₂ [] List.Pairwise.nil
  haveI : IsAntisymm (String × String) keyOrder :=
    ⟨fun a b h1 h2 => by
      have h3 : keyLt b.1 a.1 = false := keyLt_asymm h1
      have h4 : keyLt b.1 a.1 = true := h2
      rw [h3] at h4
      cases h4⟩
  exact List.eq_of_perm_of_sorted (s1.trans (hp.trans s2.symm)) sorted1 sorted2

/-- `canonicalFormat` agrees with `scalarText` on scalar values. -/
theorem canonicalFormat_scalar (v : Json) (h : isScalar v = true) :
    canonicalFormat v = .ok (scalarText v) := by
  cases v with
  | null => rfl
  | bool b => cases b <;> rfl
  | int n => rfl
  | str s => rfl
  | float => cases h
  | arr xs => cases h
  | obj kvs => cases h

/-- Member serialization succeeds on all-scalar members and is just the
pairwise serialization. -/
theorem fmtMembers_scalar :
    ∀ (kvs : List (String × Json)), (∀ kv ∈ kvs, isScalar kv.2 = true) →
      canonicalFormat.fmtMembers kvs = .ok (kvs.map serMember)
  | [] => by intro _; rfl
  | kv :: tl => by
    intro h
    obtain ⟨k, v⟩ := kv
    have hv : canonicalFormat v = .ok (scalarText v) :=
      canonicalFormat_scalar v (h (k, v) (List.mem_cons_self _ _))
    have ht := fmtMembers_scalar tl (fun x hx => h x (List.mem_cons_of_mem _ hx))
    simp [canonicalFormat.fmtMembers, hv, ht, serMember]

/-- Every member the payload serializer emits is scalar. -/
theorem payloadMembers_scalar (p : Payload) :
    ∀ kv ∈ payloadMembers p, isScalar kv.2 = true := by
  intro kv hkv
  simp only [payloadMembers, List.mem_cons, List.not_mem_nil, or_false] at hkv
  rcases hkv with h | h | h | h <;> (rw [h]; rfl)

/-- The four serialized payload keys are pairwise distinct. -/
theorem payloadMembers_keys_nodup (p : Payload) :
    (((payloadMembers p).map serMember).map Prod.fst).Nodup := by
  have h : ((payloadMembers p).map serMember).map Prod.fst =
      [encodeJsonString "body", encodeJsonString "integratedTime",
       encodeJsonString "logIndex", encodeJsonString "logID"] := by
    simp [payloadMembers, serMember]
  rw [h]
  decide

/-- C8: canonicalization is deterministic — payloads with equal field
values canonicalize to byte-identical output, and the canonical bytes do
not depend on the order in which the members reach the formatter — and
verification of a fixed (bundle, key) pair always produces the same
result (it is a pure function of its inputs). -/
theorem canonicalization_and_verification_deterministic :
    (∀ p q : Payload, p.body = q.body → p.integrated_time = q.integrated_time →
        p.log_index = q.log_index → p.log_id = q.log_id →
        canonicalFormat p.toJson = canonicalFormat q.toJson)
      ∧ (∀ (p : Payload) (kvs : List (String × Json)), kvs.Perm (payloadMembers p) →
          canonicalFormat (Json.obj kvs) = canonicalFormat p.toJson)
      ∧ ∀ (b : Bundle) (k : CosignVerificationKey) (r₁ r₂ : Except SigstoreError Unit),
          r₁ = Bundle.verify_bundle b k → r₂ = Bundle.verify_bundle b k → r₁ = r₂ := by
  refine ⟨?_, ?_, ?_⟩
  · intro p q h1 h2 h3 h4
    have h : p = q := by cases p; cases q; simp_all
    rw [h]
  · intro p kvs hperm
    have hsc : ∀ kv ∈ kvs, isScalar kv.2 = true := fun kv hkv =>
      payloadMembers_scalar p kv (hperm.subset hkv)
    have h1 : canonicalFormat.fmtMembers kvs = .ok (kvs.map serMember) :=
      fmtMembers_scalar kvs hsc
    have h2 : canonicalFormat.fmtMembers (payloadMembers p)
        = .ok ((payloadMembers p).map serMember) :=
      fmtMembers_scalar _ (payloadMembers_scalar p)
    have hmap : (kvs.map serMember).Perm ((payloadMembers p).map serMember) :=
      hperm.map serMember
    have hnodup1 : ((kvs.map serMember).map Prod.fst).Nodup :=
      ((hmap.map Prod.fst).symm).nodup (payloadMembers_keys_nodup p)
    have hsort := sortMembers_eq_of_perm _ _ hmap hnodup1
    show canonicalFormat (Json.obj kvs) = canonicalFormat (Json.obj (payloadMembers p))
    simp [canonicalFormat, h1, h2, hsort]
  · intro b k r₁ r₂ h1 h2
    rw [h1, h2]

/-- Witness for C8: a concrete payload against itself, its member list
reversed, and two runs of `verify_bundle` on a fixed pair. -/
theorem canonicalization_determinism_witness :
    canonicalFormat (Payload.toJson ⟨"b", 1, 2, "id"⟩)
        = canonicalFormat (Payload.toJson ⟨"b", 1, 2, "id"⟩)
      ∧ canonicalFormat (Json.obj ((payloadMembers ⟨"b", 1, 2, "id"⟩).reverse))
        = canonicalFormat (Payload.toJson ⟨"b", 1, 2, "id"⟩)
      ∧ Bundle.verify_bundle ⟨"AAAA", ⟨"b", 1, 2, "id"⟩⟩ ⟨fun _ _ => true⟩
        = Bundle.verify_bundle ⟨"AAAA", ⟨"b", 1, 2, "id"⟩⟩ ⟨fun _ _ => true⟩ :=
  ⟨canonicalization_and_verification_deterministic.1 _ _ rfl rfl rfl rfl,
   canonicalization_and_verification_deterministic.2.1 _ _ (List.reverse_perm _),
   canonicalization_and_verification_deterministic.2.2 _ _ _ _ rfl rfl⟩

end SigstoreBundle
